import Mathlib

/-!
Verification of the nutrition CSV cleaning pipeline.

The repository holds two close variants of the same chunked pipeline:

* `prepare_foods_csv_chunks_limited.py` — the strict variant: presence filter on
  `product_name`, a global `(name, brand)` de-duplication set `seen_pairs`,
  an optional completeness filter, the `clean_numeric` normalizer
  (comma-to-dot, first regex match of `[-+]?\d*\.?\d+`, `fillna(0.0)`,
  `clip(0, 999_999)`), a `"100g?"` sentinel for blank `serving_size`,
  quote stripping on text fields, and an all-zero-nutrient drop.
* `prepare_foods_csv_chunks.py` — the simple variant: no filters at all; each
  nutrient cell goes through `pd.to_numeric(..., errors="coerce")` followed by
  a lambda sending out-of-range values to `0.0` (NaN passes through unchanged);
  blank names are replaced by `"Unknown Product"`; `serving_size` is coerced
  numerically like a nutrient.

The embedding models a cell as `Option String` (`none` is a missing cell, NaN).
Numeric values are `ℚ`; a NaN numeric result is modelled as `none` in
`Option ℚ`.  Character classes are decided on code points so that the proofs
are plain natural-number arithmetic; this covers the ASCII range in which the
pipeline's string handling operates.
-/

namespace FoodsCSV

/-- Characters removed by Python `str.strip()`: space, TAB, LF, VT, FF, CR
(code points 32, 9, 10, 11, 12, 13). -/
def pySpace (c : Char) : Bool :=
  c.toNat == 32 || c.toNat == 9 || c.toNat == 10 || c.toNat == 11 || c.toNat == 12 ||
    c.toNat == 13

/-- ASCII digit (code points 48–57), the `\d` class of the extraction pattern. -/
def isDig (c : Char) : Bool := 48 ≤ c.toNat && c.toNat ≤ 57

/-- Python `str.strip()` on a character list: drop leading and trailing whitespace. -/
def stripChars (cs : List Char) : List Char :=
  ((cs.dropWhile pySpace).reverse.dropWhile pySpace).reverse

/-- Python `str.strip()`. -/
def strip (s : String) : String := String.mk (stripChars s.data)

/-- Python `str.lower()` (ASCII case folding suffices for the embedding). -/
def lower (s : String) : String := String.mk (s.data.map Char.toLower)

/-- `astype(str)` on one cell: a missing cell (NaN) stringifies to `"nan"`. -/
def astypeStr (c : Option String) : String :=
  match c with
  | none => "nan"
  | some s => s

/-- The `str.replace(",", ".", regex=False)` step of `clean_numeric`, per character
(code point 44 is the comma). -/
def commaToDot (c : Char) : Char := if c.toNat == 44 then '.' else c

/-- Value of a digit string, most significant digit first. -/
def natVal (ds : List Char) : ℕ := ds.foldl (fun n c => 10 * n + (c.toNat - 48)) 0

/-- Full-string parse of an unsigned decimal numeral, as a numerator/denominator
pair: accepts `d+`, `d+.d*`, and `.d+` (the grammar `float` / `pd.to_numeric`
accepts on the plain decimal forms this pipeline produces; exponent forms never
arise here).  The numeral `d1.d2` has value `(d1 * 10^|d2| + d2) / 10^|d2|`. -/
def decNumDen (cs : List Char) : Option (ℕ × ℕ) :=
  let d1 := cs.takeWhile isDig
  match cs.dropWhile isDig with
  | [] => if d1.isEmpty then none else some (natVal d1, 1)
  | c :: r2 =>
    if c.toNat == 46 then
      let d2 := r2.takeWhile isDig
      if (r2.dropWhile isDig).isEmpty then
        if d1.isEmpty && d2.isEmpty then none
        else some (natVal d1 * 10 ^ d2.length + natVal d2, 10 ^ d2.length)
      else none
    else none

/-- Full-string parse of an unsigned decimal numeral. -/
def parseUnsigned (cs : List Char) : Option ℚ :=
  (decNumDen cs).map (fun p => mkRat p.1 p.2)

/-- Full-string parse of a signed decimal numeral (code points 45 `-`, 43 `+`). -/
def parseSigned (cs : List Char) : Option ℚ :=
  match cs with
  | [] => none
  | c :: t =>
    if c.toNat == 45 then (decNumDen t).map (fun p => mkRat (-(p.1 : ℤ)) p.2)
    else if c.toNat == 43 then parseUnsigned t
    else parseUnsigned (c :: t)

/-- `pd.to_numeric(s, errors="coerce")` on a string cell: surrounding whitespace is
tolerated, anything else unparsable coerces to NaN (`none`). -/
def toNumeric (s : String) : Option ℚ := parseSigned (stripChars s.data)

/-- `pd.to_numeric` on a cell; a missing cell stays NaN. -/
def toNumericCell (c : Option String) : Option ℚ := c.bind toNumeric

/-- Greedy match of `\d*\.?\d+` anchored at the start of `cs`, with the
backtracking preference of `re`: longest digit run, then the optional dot only
when at least one digit follows it. -/
def unsignedMatchAt (cs : List Char) : Option (List Char) :=
  let d1 := cs.takeWhile isDig
  match cs.dropWhile isDig with
  | c :: r2 =>
    if c.toNat == 46 then
      let d2 := r2.takeWhile isDig
      if d2.isEmpty then (if d1.isEmpty then none else some d1)
      else some (d1 ++ c :: d2)
    else (if d1.isEmpty then none else some d1)
  | [] => if d1.isEmpty then none else some d1

/-- Match of `[-+]?\d*\.?\d+` anchored at the start of `cs`.  If a sign is
present the body must follow it; backtracking to an empty sign cannot succeed
because a sign character matches neither `\d` nor `\.`. -/
def numMatchAt (cs : List Char) : Option (List Char) :=
  match cs with
  | [] => none
  | c :: t =>
    if c.toNat == 45 || c.toNat == 43 then (unsignedMatchAt t).map (fun m => c :: m)
    else unsignedMatchAt (c :: t)

/-- `str.extract(r"([-+]?\d*\.?\d+)")`: leftmost match of the pattern, scanning
start positions left to right. -/
def extractFirst : List Char → Option (List Char)
  | [] => none
  | c :: t =>
    match numMatchAt (c :: t) with
    | some m => some m
    | none => extractFirst t

/-- The `clip(0, 999_999)` step: values below the lower bound become 0, values
above the upper bound become 999999. -/
def clip (q : ℚ) : ℚ := if q < 0 then 0 else if 999999 < q then 999999 else q

/-- Per-cell semantics of the strict variant's `clean_numeric` on a present
column: `astype(str)`, comma to dot, first `[-+]?\d*\.?\d+` match,
`pd.to_numeric` on the match, `fillna(0.0)` when there is no match, and
`clip(0, 999_999)`. -/
def clean_numeric (c : Option String) : ℚ :=
  let s := (astypeStr c).data.map commaToDot
  clip (((extractFirst s).bind parseSigned).getD 0)

/-- Per-cell semantics of the simple variant's nutrient columns (lines 14–52 of
`prepare_foods_csv_chunks.py`): `pd.to_numeric(..., errors="coerce")` then
`apply(lambda x: 0.0 if (x > 999999 or x < 0) else x)`.  Both comparisons are
false on NaN, so NaN (`none`) passes through unchanged. -/
def simpleCell (c : Option String) : Option ℚ :=
  match toNumericCell c with
  | none => none
  | some v => if 999999 < v ∨ v < 0 then some 0 else some v

/-- The `servings` mapping shared verbatim by both variants:
`pd.to_numeric(serving_quantity, errors="coerce")` then
`apply(lambda x: 1.0 if (pd.isna(x) or x <= 0 or x > 99) else x)`. -/
def servingsNorm (c : Option String) : ℚ :=
  match toNumericCell c with
  | none => 1
  | some v => if v ≤ 0 ∨ 99 < v then 1 else v

/-- Quote characters removed from text fields (code points 34 `"` and 39 `'`). -/
def isQuote (c : Char) : Bool := c.toNat == 34 || c.toNat == 39

/-- The quote-removal step applied to every object (text) column of the strict
variant's output frame. -/
def stripQuotes (s : String) : String := String.mk (s.data.filter (fun c => !(isQuote c)))

/-- A raw input record, holding the cells of the columns the pipeline consumes.
A cell is `none` when the value is missing (NaN).  The nutrient cells are kept
as a list, in the fixed column order; `completeness` is the cell of the
completeness-score column when one exists. -/
structure Raw where
  name : Option String
  brand : Option String
  nutrients : List (Option String)
  serving_size : Option String
  serving_quantity : Option String
  completeness : Option String
deriving DecidableEq

/-- An output row of the strict variant: all text fields are strings, the
nutrient fields are clipped rationals, `servings` is a rational. -/
structure Canon where
  name : String
  brand : String
  nutrients : List ℚ
  serving_size : String
  servings : ℚ
deriving DecidableEq

/-- An output row of the simple variant: `brand` may be missing, nutrient
fields and `serving_size` may be NaN (`none`). -/
structure SCanon where
  name : String
  brand : Option String
  nutrients : List (Option ℚ)
  serving_size : Option ℚ
  servings : ℚ
deriving DecidableEq

/-- The strict variant's presence filter (step 1):
`name_col.notna() & (name_col.astype(str).str.strip() != "")`. -/
def presenceOK (r : Raw) : Bool :=
  match r.name with
  | none => false
  | some s => !(strip s == (""))

/-- The strict variant's de-duplication key for one record:
`(str(n).strip().lower(), "" if pd.isna(b) else str(b).strip().lower())`. -/
def dedupKey (r : Raw) : String × String :=
  (lower (strip (astypeStr r.name)),
   match r.brand with
   | none => ("")
   | some b => lower (strip b))

/-- The per-record loop of the strict variant's de-duplication (step 2): walk the
records in order, keep a record iff its key is not yet in `seen_pairs`, inserting
the key when the record is kept.  Returns the kept records and the grown set. -/
def dedupFold : List (String × String) → List Raw → List Raw × List (String × String)
  | seen, [] => ([], seen)
  | seen, r :: rs =>
    if dedupKey r ∈ seen then dedupFold seen rs
    else
      let p := dedupFold (dedupKey r :: seen) rs
      (r :: p.1, p.2)

/-- Completeness value of a record (strict variant, step 3):
`pd.to_numeric(col, errors="coerce").fillna(0)`. -/
def complVal (r : Raw) : ℚ := (toNumericCell r.completeness).getD 0

/-- Keep iff the completeness value is at least `0.5`. -/
def complOK (r : Raw) : Bool := decide (mkRat 1 2 ≤ complVal r)

/-- A record is all-zero when every one of its nutrient cells cleans to `0.0`
(strict variant, step 7: `(out[nutrient_cols] == 0).all(axis=1)`). -/
def allZeroRaw (r : Raw) : Bool := (r.nutrients.map clean_numeric).all (fun q => q == 0)

/-- The filters running after the key was inserted into `seen_pairs`: the
completeness filter (only when a completeness column exists) and the all-zero
nutrient drop. -/
def postOK (compl : Bool) (r : Raw) : Bool :=
  (if compl then complOK r else true) && !(allZeroRaw r)

/-- The strict variant's field mapping (steps 4–6) for one surviving record:
build the output row, substitute the `"100g?"` sentinel for a blank
`serving_size`, then strip quote characters from every text column. -/
def mapRecord (r : Raw) : Canon :=
  let rawSS := (r.serving_size).getD ("")
  { name := stripQuotes (astypeStr r.name)
    brand := stripQuotes ((r.brand).getD (""))
    nutrients := r.nutrients.map clean_numeric
    serving_size := stripQuotes (if strip rawSS = ("") then ("100g?") else rawSS)
    servings := servingsNorm r.serving_quantity }

/-- One chunk of the strict pipeline: presence filter, de-duplication against
the global `seen_pairs`, optional completeness filter, all-zero drop.  Returns
the surviving raw records (the rows of the written frame) and the grown
`seen_pairs`.  The `compl` flag states whether the input exposes one of the
completeness-score columns. -/
def chunkSurvivors (compl : Bool) (seen : List (String × String)) (rs : List Raw) :
    List Raw × List (String × String) :=
  let kept := rs.filter presenceOK
  let dd := dedupFold seen kept
  let kept2 := if compl then dd.1.filter complOK else dd.1
  (kept2.filter (fun r => !(allZeroRaw r)), dd.2)

/-- One step of the strict driver loop: thread `seen_pairs` through a chunk and
collect its survivors. -/
def chunkStep (compl : Bool) (acc : List Raw × List (String × String)) (ch : List Raw) :
    List Raw × List (String × String) :=
  let s := chunkSurvivors compl acc.2 ch
  (acc.1 ++ s.1, s.2)

/-- All surviving raw records of a strict run over a list of chunks, in output
order, together with the final `seen_pairs`. -/
def runState (compl : Bool) (chunks : List (List Raw)) : List Raw × List (String × String) :=
  chunks.foldl (chunkStep compl) ([], [])

/-- The surviving raw records of a strict run. -/
def runSurvivors (compl : Bool) (chunks : List (List Raw)) : List Raw :=
  (runState compl chunks).1

/-- The output rows of a strict run. -/
def runOutput (compl : Bool) (chunks : List (List Raw)) : List Canon :=
  (runSurvivors compl chunks).map mapRecord

/-- One step of the strict driver's writing behaviour: a chunk with no
survivors is skipped (`continue`); otherwise `to_csv(..., header=daHeader,
mode="a")` appends one batch, flagged with the current header flag, and the
flag drops to `False`.  The state is (events, (seen_pairs, daHeader)). -/
def strictWriteStep (compl : Bool)
    (st : List (Bool × List Canon) × (List (String × String) × Bool)) (ch : List Raw) :
    List (Bool × List Canon) × (List (String × String) × Bool) :=
  let s := chunkSurvivors compl st.2.1 ch
  if s.1.isEmpty then (st.1, (s.2, st.2.2))
  else (st.1 ++ [(st.2.2, s.1.map mapRecord)], (s.2, false))

/-- The write events of a strict run: one entry per written batch, whose flag
records whether the header row was written with that batch. -/
def runEvents (compl : Bool) (chunks : List (List Raw)) : List (Bool × List Canon) :=
  (chunks.foldl (strictWriteStep compl) ([], ([], true))).1

/-- The simple variant's `name` mapping:
`fillna("").replace(r"^\s*$", "Unknown Product", regex=True)` — a missing or
all-whitespace name becomes `"Unknown Product"`. -/
def simpleName (c : Option String) : String :=
  let s := c.getD ("")
  if s.data.all pySpace then ("Unknown Product") else s

/-- The simple variant's field mapping for one record (`prepare_foods_csv_chunks.py`
lines 9–55): no filtering, nutrient cells and `serving_size` numerically
coerced, `servings` as in the strict variant. -/
def simpleMapRecord (r : Raw) : SCanon :=
  { name := simpleName r.name
    brand := r.brand
    nutrients := r.nutrients.map simpleCell
    serving_size := simpleCell r.serving_size
    servings := servingsNorm r.serving_quantity }

/-- The simple variant's driver: every chunk is mapped and written; the header
flag is true only for the first written chunk. -/
def simpleWriteStep (st : List (Bool × List SCanon) × Bool) (ch : List Raw) :
    List (Bool × List SCanon) × Bool :=
  (st.1 ++ [(st.2, ch.map simpleMapRecord)], false)

/-- The write events of a simple run. -/
def simpleRunEvents (chunks : List (List Raw)) : List (Bool × List SCanon) :=
  (chunks.foldl simpleWriteStep ([], true)).1

/-- The output rows of a simple run. -/
def simpleRunOut (chunks : List (List Raw)) : List SCanon :=
  ((simpleRunEvents chunks).map Prod.snd).flatten

/-- The column order of the strict variant's output frame
(`prepare_foods_csv_chunks_limited.py`, the `out` dictionary, lines 77–128). -/
def strictOutColumns : List String :=
  ["name", "brand", "calories", "total_carbs", "fiber", "sugar", "added_sugar",
   "total_fats", "omega_3", "omega_6", "saturated_fats", "trans_fats", "protein",
   "vitamin_a", "vitamin_b6", "vitamin_b12", "vitamin_c", "vitamin_d", "vitamin_e",
   "vitamin_k", "thiamin", "riboflavin", "niacin", "folate", "pantothenic_acid",
   "biotin", "choline", "calcium", "chromium", "copper", "fluoride", "iodine",
   "iron", "magnesium", "manganese", "molybdenum", "phosphorus", "selenium",
   "zinc", "potassium", "sodium", "chloride", "serving_size", "servings"]

/-- The column order of the simple variant's output frame
(`prepare_foods_csv_chunks.py`, the `out` dictionary, lines 9–55). -/
def simpleOutColumns : List String :=
  ["name", "brand", "calories", "total_carbs", "fiber", "sugar", "added_sugar",
   "total_fats", "omega_3", "omega_6", "saturated_fats", "trans_fats", "protein",
   "vitamin_a", "vitamin_b6", "vitamin_b12", "vitamin_c", "vitamin_d", "vitamin_e",
   "vitamin_k", "thiamin", "riboflavin", "niacin", "folate", "pantothenic_acid",
   "biotin", "choline", "calcium", "chromium", "copper", "fluoride", "iodine",
   "iron", "magnesium", "manganese", "molybdenum", "phosphorus", "selenium",
   "zinc", "potassium", "sodium", "chloride", "serving_size", "servings"]

/-- Modelled from the spec: the canonical output field order stated in §6 of the
specification, for comparison with the orders the two variants actually emit. -/
def specFieldOrder : List String :=
  ["name", "brand", "calories", "total_carbs", "fiber", "sugar", "added_sugar",
   "total_fats", "omega_3", "omega_6", "saturated_fats", "trans_fats", "protein",
   "vitamin_a", "vitamin_b6", "vitamin_b12", "vitamin_c", "vitamin_d", "vitamin_e",
   "vitamin_k", "thiamin", "riboflavin", "niacin", "folate", "pantothenic_acid",
   "biotin", "choline", "calcium", "chromium", "copper", "fluoride", "iodine",
   "iron", "magnesium", "manganese", "molybdenum", "phosphorus", "selenium",
   "zinc", "potassium", "sodium", "chloride", "serving_size", "servings"]

/-- Column-level semantics of `clean_numeric` in the strict variant: `df.get`
yields `None` for an absent column, and the `col is None` branch returns
`pd.Series(dtype="float64")` — an EMPTY series.  When the output frame is
assembled, index alignment turns that empty series into NaN (`none`) on every
one of the chunk's rows, not into the default `0.0`. -/
def clean_numeric_column (col : Option (List (Option String))) (nrows : ℕ) :
    List (Option ℚ) :=
  match col with
  | none => List.replicate nrows none
  | some cells => cells.map (fun c => some (clean_numeric c))

/-- Column-level semantics of a nutrient column in the simple variant:
`pd.to_numeric(df.get(col), errors="coerce")` on an absent column gives the
scalar `nan`, and calling `.apply` on that float raises `AttributeError`. -/
def simpleNutrientColumn (col : Option (List (Option String))) :
    Except String (List (Option ℚ)) :=
  match col with
  | none => Except.error ("AttributeError")
  | some cells => Except.ok (cells.map simpleCell)

/-- Record-at-a-time reformulation of one strict chunk's filtering: the presence
check, the `seen_pairs` lookup/insertion, and the post-dedup filters, applied to
one record against the accumulated (survivors, seen_pairs) state.  Folding this
over the concatenation of all chunks is proved equal to the chunked pipeline. -/
def flatStep (compl : Bool) (acc : List Raw × List (String × String)) (r : Raw) :
    List Raw × List (String × String) :=
  if presenceOK r then
    if dedupKey r ∈ acc.2 then acc
    else (acc.1 ++ (if postOK compl r then [r] else []), dedupKey r :: acc.2)
  else acc

/-- The first record of `rs` that passes the presence filter and carries the
de-duplication key `k`. -/
def firstWithKey (rs : List Raw) (k : String × String) : Option Raw :=
  (rs.filter (fun x => presenceOK x && (dedupKey x == k))).head?

/-- Invariant of the de-duplication state: `seen` holds exactly the keys of the
presence-passing records processed so far. -/
def SeenSpec (processed : List Raw) (seen : List (String × String)) : Prop :=
  ∀ k, k ∈ seen ↔ ∃ x ∈ processed, presenceOK x = true ∧ dedupKey x = k

/-- Invariant of the survivor list: every survivor passed the presence filter
and the post-dedup filters and is the first presence-passing record with its
key, and no two survivors share a key. -/
def OutSpec (compl : Bool) (processed out : List Raw) : Prop :=
  (∀ o ∈ out, presenceOK o = true ∧ postOK compl o = true ∧
      firstWithKey processed (dedupKey o) = some o) ∧
  out.Pairwise (fun a b => dedupKey a ≠ dedupKey b)

/-- C2 counterexample, first record: a valid name/brand pair whose nutrients all
clean to zero, so it claims the key and is then dropped by the all-zero filter. -/
def c2first : Raw := ⟨some ("Apple"), some ("BX"), [some ("0")], none, none, none⟩

/-- C2 counterexample, second record: same key up to trim/lowercase, non-zero
nutrients. -/
def c2second : Raw := ⟨some (" apple "), some ("bx"), [some ("52")], none, none, none⟩

/-- C2 witness, first record: survives every filter. -/
def c2wa : Raw := ⟨some ("Pear"), some ("BrandY"), [some ("5")], none, none, none⟩

/-- C2 witness, second record: duplicate key of `c2wa`. -/
def c2wb : Raw := ⟨some ("pear "), some ("brandy"), [some ("6")], none, none, none⟩

/-- C3 counterexample: a record with a valid name whose every nutrient cell
normalizes to zero (in both variants' normalizers). -/
def c3zero : Raw := ⟨some ("Rice"), some ("B"), [some ("0"), some ("0.0")], none, none, none⟩

/-- C3 witness record: all nutrients zero. -/
def c3wzero : Raw := ⟨some ("Salt"), some ("B"), [some ("0")], none, none, none⟩

/-- C4 counterexample: a record whose name is blank after trimming. -/
def c4blank : Raw := ⟨some ("   "), some ("B"), [some ("7")], none, none, none⟩

/-- C4 witness record: blank name. -/
def c4wblank : Raw := ⟨some (" "), some ("C"), [some ("9")], none, none, none⟩

/-- C6 counterexample: a record whose `serving_size` cell is the text `240 ml`. -/
def c6raw : Raw := ⟨some ("Milk"), some ("B"), [some ("3")], some ("240 ml"), none, none⟩

/-- C6 witness record: non-blank `serving_size` text. -/
def c6wraw : Raw := ⟨some ("Oats"), some ("B"), [some ("4")], some ("30 g"), some ("2"), none⟩

/-- C7 witness record for the strict pipeline: survives and forces one write. -/
def c7wstrict : Raw := ⟨some ("Bread"), some ("B"), [some ("8")], none, none, none⟩

/-- C7 witness record for the simple pipeline. -/
def c7wsimple : Raw := ⟨some ("Jam"), some ("B"), [some ("2")], none, none, none⟩

/-- C9 witness, first record: claims its key, then is dropped by the all-zero
filter. -/
def c9wfirst : Raw := ⟨some ("Tea"), some ("B"), [some ("0")], none, none, none⟩

/-- C9 witness, second record: same key as `c9wfirst`, non-zero nutrients. -/
def c9wsecond : Raw := ⟨some ("tea"), some ("b"), [some ("1")], none, none, none⟩

example : clean_numeric (some ("0,8 g")) = mkRat 4 5 := by decide
example : clean_numeric (some ("< 1 mg")) = 1 := by decide
example : clean_numeric (some ("-2")) = 0 := by decide
example : clean_numeric (some ("25 g")) = 25 := by decide
example : clean_numeric none = 0 := by decide
example : clean_numeric (some ("1234567")) = 999999 := by decide
example : toNumeric ("2,5") = none := by decide
example : toNumeric (" 2.5 ") = some (mkRat 5 2) := by decide
example : simpleCell (some ("2,5")) = none := by decide
example : servingsNorm (some ("150")) = 1 := by decide
example : servingsNorm none = 1 := by decide

theorem takeWhile_all {p : α → Bool} {l : List α} (h : ∀ a ∈ l, p a = true) :
    l.takeWhile p = l := by
  induction l with
  | nil => rfl
  | cons a t ih =>
    rw [List.takeWhile_cons_of_pos (h a (by simp))]
    exact congrArg (List.cons a) (ih (fun b hb => h b (by simp [hb])))

theorem dropWhile_nil_of_all {p : α → Bool} {l : List α} (h : ∀ a ∈ l, p a = true) :
    l.dropWhile p = [] := by
  induction l with
  | nil => rfl
  | cons a t ih =>
    rw [List.dropWhile_cons_of_pos (h a (by simp))]
    exact ih (fun b hb => h b (by simp [hb]))

theorem dropWhile_self_of_all {p : α → Bool} {l : List α} (h : ∀ a ∈ l, p a = false) :
    l.dropWhile p = l := by
  cases l with
  | nil => rfl
  | cons a t => exact List.dropWhile_cons_of_neg (by simp [h a (by simp)])

theorem isDig_bounds {c : Char} (h : isDig c = true) : 48 ≤ c.toNat ∧ c.toNat ≤ 57 := by
  simpa [isDig, Bool.and_eq_true, decide_eq_true_eq] using h

theorem isDig_not_space {c : Char} (h : isDig c = true) : pySpace c = false := by
  have hb := isDig_bounds h
  simp only [pySpace, Bool.or_eq_false_iff, beq_eq_false_iff_ne, ne_eq]
  omega

theorem isDig_not_sign {c : Char} (h : isDig c = true) :
    (c.toNat == 45 || c.toNat == 43) = false := by
  have hb := isDig_bounds h
  simp only [Bool.or_eq_false_iff, beq_eq_false_iff_ne, ne_eq]
  omega

theorem isDig_commaToDot {c : Char} (h : isDig c = true) : commaToDot c = c := by
  have hb := isDig_bounds h
  simp only [commaToDot, ite_eq_right_iff]
  intro hc
  simp only [beq_iff_eq] at hc
  omega

theorem dot_not_space {c : Char} (h : c.toNat = 46) : pySpace c = false := by
  simp only [pySpace, Bool.or_eq_false_iff, beq_eq_false_iff_ne, ne_eq]
  omega

theorem dot_not_sign {c : Char} (h : c.toNat = 46) :
    (c.toNat == 45 || c.toNat == 43) = false := by
  simp only [Bool.or_eq_false_iff, beq_eq_false_iff_ne, ne_eq]
  omega

theorem dot_commaToDot {c : Char} (h : c.toNat = 46) : commaToDot c = c := by
  simp only [commaToDot, ite_eq_right_iff]
  intro hc
  simp only [beq_iff_eq] at hc
  omega

theorem digit_or_dot_not_sign {c : Char} (h : isDig c = true ∨ c.toNat = 46) :
    (c.toNat == 45 || c.toNat == 43) = false :=
  h.elim isDig_not_sign dot_not_sign

theorem digit_or_dot_not_space {c : Char} (h : isDig c = true ∨ c.toNat = 46) :
    pySpace c = false :=
  h.elim isDig_not_space dot_not_space

theorem decNumDen_ne_nil {cs : List Char} {p : ℕ × ℕ} (h : decNumDen cs = some p) :
    cs ≠ [] := by
  rintro rfl
  simp [decNumDen] at h

theorem decNumDen_chars {cs : List Char} {p : ℕ × ℕ} (h : decNumDen cs = some p) :
    ∀ c ∈ cs, isDig c = true ∨ c.toNat = 46 := by
  intro c hc
  have hsplit := List.takeWhile_append_dropWhile isDig cs
  rw [decNumDen] at h
  cases hdrop : cs.dropWhile isDig with
  | nil =>
    rw [hdrop, List.append_nil] at hsplit
    exact Or.inl (List.mem_takeWhile_imp (hsplit ▸ hc))
  | cons c0 r2 =>
    rw [hdrop] at h hsplit
    by_cases h46 : (c0.toNat == 46) = true
    · simp only [h46, if_true] at h
      by_cases hr2 : (r2.dropWhile isDig).isEmpty = true
      · rw [← hsplit] at hc
        rcases List.mem_append.mp hc with hmem | hmem
        · exact Or.inl (List.mem_takeWhile_imp hmem)
        · rcases List.mem_cons.mp hmem with rfl | hmem2
          · exact Or.inr (by simpa [beq_iff_eq] using h46)
          · have hr2nil : r2.dropWhile isDig = [] := by simpa [List.isEmpty_iff] using hr2
            have : r2.takeWhile isDig = r2 := by
              have := List.takeWhile_append_dropWhile isDig r2
              rwa [hr2nil, List.append_nil] at this
            exact Or.inl (List.mem_takeWhile_imp (this ▸ hmem2))
      · simp [hr2] at h
    · simp [h46] at h

theorem decNumDen_head {cs : List Char} {p : ℕ × ℕ} (h : decNumDen cs = some p) :
    ∃ c t, cs = c :: t ∧ (isDig c = true ∨ c.toNat = 46) := by
  cases cs with
  | nil => exact absurd h (by simp [decNumDen])
  | cons c t => exact ⟨c, t, rfl, decNumDen_chars h c (by simp)⟩

theorem decNumDen_digits {l : List Char} (hl : ∀ a ∈ l, isDig a = true)
    (hne : l.isEmpty = false) : decNumDen l = some (natVal l, 1) := by
  rw [decNumDen]
  rw [takeWhile_all hl, dropWhile_nil_of_all hl]
  simp [hne]

theorem unsignedMatchAt_full {cs : List Char} {p : ℕ × ℕ} (h : decNumDen cs = some p) :
    ∃ m, unsignedMatchAt cs = some m ∧ decNumDen m = some p := by
  have hsplit := List.takeWhile_append_dropWhile isDig cs
  have halldig : ∀ a ∈ cs.takeWhile isDig, isDig a = true :=
    fun a ha => List.mem_takeWhile_imp ha
  rw [decNumDen] at h
  cases hdrop : cs.dropWhile isDig with
  | nil =>
    rw [hdrop, List.append_nil] at hsplit
    rw [hdrop] at h
    by_cases hemp : (cs.takeWhile isDig).isEmpty = true
    · simp [hemp] at h
    · refine ⟨cs.takeWhile isDig, ?_, ?_⟩
      · rw [unsignedMatchAt, hdrop]
        simp [hemp]
      · rw [decNumDen]
        rw [takeWhile_all halldig, dropWhile_nil_of_all halldig]
        simp only [hemp] at h ⊢
        simpa using h
  | cons c0 r2 =>
    rw [hdrop] at h hsplit
    by_cases h46 : (c0.toNat == 46) = true
    · simp only [h46, if_true] at h
      by_cases hr2 : (r2.dropWhile isDig).isEmpty = true
      · simp only [hr2, if_true] at h
        have hr2nil : r2.dropWhile isDig = [] := by simpa [List.isEmpty_iff] using hr2
        have htr2 : r2.takeWhile isDig = r2 := by
          have := List.takeWhile_append_dropWhile isDig r2
          rwa [hr2nil, List.append_nil] at this
        cases r2 with
        | nil =>
          have hd1 : (cs.takeWhile isDig).isEmpty = false := by
            by_contra hcon
            have : (cs.takeWhile isDig).isEmpty = true := by
              cases hx : (cs.takeWhile isDig).isEmpty
              · exact absurd hx hcon
              · rfl
            simp [this, htr2] at h
          simp only [htr2, List.isEmpty_nil, hd1, Bool.false_and, if_false] at h
          refine ⟨cs.takeWhile isDig, ?_, ?_⟩
          · rw [unsignedMatchAt, hdrop]
            simp [h46, htr2, hd1]
          · rw [decNumDen_digits halldig hd1]
            rw [← h]
            norm_num [natVal]
        | cons a t =>
          refine ⟨cs.takeWhile isDig ++ c0 :: (a :: t), ?_, ?_⟩
          · rw [unsignedMatchAt, hdrop]
            simp only [h46, if_true, htr2]
            simp
          · rw [hsplit]
            rw [decNumDen, hdrop]
            simp only [h46, if_true, hr2, if_true]
            simpa [htr2] using h
      · simp [hr2] at h
    · simp [h46] at h

theorem numMatchAt_of_head {c : Char} {t : List Char}
    (hc : (c.toNat == 45 || c.toNat == 43) = false) :
    numMatchAt (c :: t) = unsignedMatchAt (c :: t) := by
  simp [numMatchAt, hc]

theorem extractFirst_head_match {c : Char} {t m : List Char}
    (h : numMatchAt (c :: t) = some m) : extractFirst (c :: t) = some m := by
  simp [extractFirst, h]

theorem parseSigned_not_sign {c : Char} {t : List Char}
    (hc : (c.toNat == 45 || c.toNat == 43) = false) :
    parseSigned (c :: t) = parseUnsigned (c :: t) := by
  simp only [Bool.or_eq_false_iff] at hc
  simp [parseSigned, hc.1, hc.2]

theorem stripChars_of_no_space {cs : List Char} (h : ∀ c ∈ cs, pySpace c = false) :
    stripChars cs = cs := by
  unfold stripChars
  rw [dropWhile_self_of_all h]
  rw [dropWhile_self_of_all (fun c hc => h c (List.mem_reverse.mp hc))]
  exact List.reverse_reverse cs

theorem map_commaToDot_self {cs : List Char} (h : ∀ c ∈ cs, isDig c = true ∨ c.toNat = 46) :
    cs.map commaToDot = cs := by
  induction cs with
  | nil => rfl
  | cons a t ih =>
    have ha : commaToDot a = a := (h a (by simp)).elim isDig_commaToDot dot_commaToDot
    simp [ha, ih (fun c hc => h c (by simp [hc]))]

theorem mkRat_nat_nonneg (a b : ℕ) : (0 : ℚ) ≤ mkRat (a : ℤ) b :=
  Rat.mkRat_nonneg (by positivity) b

theorem toNumeric_of_decNumDen {s : String} {p : ℕ × ℕ} (h : decNumDen s.data = some p) :
    toNumeric s = some (mkRat p.1 p.2) := by
  have hchars := decNumDen_chars h
  have hnospace : ∀ c ∈ s.data, pySpace c = false :=
    fun c hc => digit_or_dot_not_space (hchars c hc)
  rw [toNumeric, stripChars_of_no_space hnospace]
  obtain ⟨c, t, hcons, hcd⟩ := decNumDen_head h
  rw [hcons, parseSigned_not_sign (digit_or_dot_not_sign hcd)]
  simp only [parseUnsigned, ← hcons, h, Option.map_some']

theorem parseSigned_of_decNumDen {m : List Char} {p : ℕ × ℕ} (h : decNumDen m = some p) :
    parseSigned m = some (mkRat p.1 p.2) := by
  obtain ⟨c, t, hcons, hcd⟩ := decNumDen_head h
  rw [hcons, parseSigned_not_sign (digit_or_dot_not_sign hcd)]
  simp only [parseUnsigned, ← hcons, h, Option.map_some']

theorem clean_numeric_of_decNumDen {s : String} {p : ℕ × ℕ} (h : decNumDen s.data = some p) :
    clean_numeric (some s) = clip (mkRat p.1 p.2) := by
  have hchars := decNumDen_chars h
  obtain ⟨c, t, hcons, hcd⟩ := decNumDen_head h
  obtain ⟨m, hm, hmp⟩ := unsignedMatchAt_full h
  have hnum : numMatchAt s.data = some m := by
    rw [hcons] at hm ⊢
    rw [numMatchAt_of_head (digit_or_dot_not_sign hcd)]
    exact hm
  have hex : extractFirst s.data = some m := by
    rw [hcons] at hnum ⊢
    exact extractFirst_head_match hnum
  show clip (((extractFirst ((astypeStr (some s)).data.map commaToDot)).bind parseSigned).getD 0) =
    clip (mkRat p.1 p.2)
  have hastype : astypeStr (some s) = s := rfl
  rw [hastype, map_commaToDot_self hchars, hex]
  simp only [Option.some_bind, parseSigned_of_decNumDen hmp, Option.getD_some]

theorem clip_of_bounds {q : ℚ} (h0 : 0 ≤ q) (h1 : q ≤ 999999) : clip q = q := by
  rw [clip, if_neg (by linarith), if_neg (by linarith)]

theorem clip_nonneg (q : ℚ) : 0 ≤ clip q := by
  rw [clip]
  split_ifs with h1 h2
  · exact le_refl 0
  · norm_num
  · linarith

theorem clip_le (q : ℚ) : clip q ≤ 999999 := by
  rw [clip]
  split_ifs with h1 h2
  · norm_num
  · exact le_refl _
  · linarith

theorem filter_two (p q : α → Bool) (l : List α) :
    (l.filter q).filter p = l.filter (fun a => q a && p a) := by
  induction l with
  | nil => rfl
  | cons a t ih => cases hq : q a <;> cases hp : p a <;> simp [List.filter_cons, hq, hp, ih]

theorem filter_ext (p q : α → Bool) (l : List α) (h : ∀ a, p a = q a) :
    l.filter p = l.filter q := by
  induction l with
  | nil => rfl
  | cons a t ih => rw [List.filter_cons, List.filter_cons, h a, ih]

theorem chunkSurvivors_eq (compl : Bool) (seen : List (String × String)) (rs : List Raw) :
    chunkSurvivors compl seen rs =
      ((dedupFold seen (rs.filter presenceOK)).1.filter (postOK compl),
       (dedupFold seen (rs.filter presenceOK)).2) := by
  rw [chunkSurvivors]
  cases compl with
  | false =>
    simp only [if_neg (by simp : ¬(false = true))]
    rw [filter_ext _ (postOK false) _ (fun a => by simp [postOK])]
  | true =>
    simp only [if_pos rfl, if_true]
    rw [filter_two]
    rw [filter_ext _ (postOK true) _ (fun a => by simp [postOK])]

theorem foldl_flatStep_eq (compl : Bool) (rs : List Raw) :
    ∀ (out0 : List Raw) (seen : List (String × String)),
      rs.foldl (flatStep compl) (out0, seen) =
        (out0 ++ ((dedupFold seen (rs.filter presenceOK)).1.filter (postOK compl)),
         (dedupFold seen (rs.filter presenceOK)).2) := by
  induction rs with
  | nil => intro out0 seen; simp [dedupFold]
  | cons r rs ih =>
    intro out0 seen
    rw [List.foldl_cons]
    by_cases hp : presenceOK r = true
    · by_cases hk : dedupKey r ∈ seen
      · have hstep : flatStep compl (out0, seen) r = (out0, seen) := by
          simp [flatStep, hp, hk]
        rw [hstep, ih out0 seen, List.filter_cons_of_pos hp]
        have hdd : dedupFold seen (r :: rs.filter presenceOK) =
            dedupFold seen (rs.filter presenceOK) := by
          rw [dedupFold, if_pos hk]
        rw [hdd]
      · have hstep : flatStep compl (out0, seen) r =
            (out0 ++ (if postOK compl r then [r] else []), dedupKey r :: seen) := by
          simp [flatStep, hp, hk]
        rw [hstep, ih, List.filter_cons_of_pos hp]
        have hdd : dedupFold seen (r :: rs.filter presenceOK) =
            (r :: (dedupFold (dedupKey r :: seen) (rs.filter presenceOK)).1,
             (dedupFold (dedupKey r :: seen) (rs.filter presenceOK)).2) := by
          rw [dedupFold, if_neg hk]
        rw [hdd]
        cases hpost : postOK compl r with
        | false => simp [List.filter_cons, hpost]
        | true => simp [List.filter_cons, hpost]
    · have hp' : presenceOK r = false := by
        cases hx : presenceOK r
        · rfl
        · exact absurd hx hp
      have hstep : flatStep compl (out0, seen) r = (out0, seen) := by
        simp [flatStep, hp']
      rw [hstep, ih out0 seen, List.filter_cons_of_neg (by simp [hp'])]

theorem runState_eq_flat (compl : Bool) (chunks : List (List Raw)) :
    ∀ st : List Raw × List (String × String),
      chunks.foldl (chunkStep compl) st = chunks.flatten.foldl (flatStep compl) st := by
  induction chunks with
  | nil => intro st; rfl
  | cons ch chs ih =>
    intro st
    obtain ⟨o, s⟩ := st
    rw [List.foldl_cons, List.flatten_cons, List.foldl_append, ih]
    congr 1
    rw [foldl_flatStep_eq, chunkStep, chunkSurvivors_eq]

theorem firstWithKey_append_of_some {rs ts : List Raw} {k : String × String} {o : Raw}
    (h : firstWithKey rs k = some o) : firstWithKey (rs ++ ts) k = some o := by
  rw [firstWithKey] at h ⊢
  rw [List.filter_append, List.head?_append, h]
  rfl

theorem firstWithKey_mem {rs : List Raw} {k : String × String} {o : Raw}
    (h : firstWithKey rs k = some o) :
    o ∈ rs ∧ presenceOK o = true ∧ dedupKey o = k := by
  rw [firstWithKey] at h
  have hmem : o ∈ rs.filter (fun x => presenceOK x && (dedupKey x == k)) :=
    List.mem_of_mem_head? (by simp [h])
  have h2 := List.mem_filter.mp hmem
  have h3 := h2.2
  simp only [Bool.and_eq_true, beq_iff_eq] at h3
  exact ⟨h2.1, h3.1, h3.2⟩

theorem flatStep_preserves (compl : Bool) (r : Raw) (processed out : List Raw)
    (seen : List (String × String)) (hseen : SeenSpec processed seen)
    (hout : OutSpec compl processed out) :
    SeenSpec (processed ++ [r]) (flatStep compl (out, seen) r).2 ∧
      OutSpec compl (processed ++ [r]) (flatStep compl (out, seen) r).1 := by
  have hkey_seen : ∀ o ∈ out, dedupKey o ∈ seen := by
    intro o ho
    obtain ⟨hmem, hpres, _⟩ := firstWithKey_mem (hout.1 o ho).2.2
    exact (hseen (dedupKey o)).mpr ⟨o, hmem, hpres, rfl⟩
  by_cases hp : presenceOK r = true
  · by_cases hk : dedupKey r ∈ seen
    · have hstep : flatStep compl (out, seen) r = (out, seen) := by
        simp [flatStep, hp, hk]
      rw [hstep]
      refine ⟨?_, ?_, hout.2⟩
      · intro k
        constructor
        · intro hkm
          obtain ⟨x, hx, hpx, hkx⟩ := (hseen k).mp hkm
          exact ⟨x, List.mem_append_left _ hx, hpx, hkx⟩
        · rintro ⟨x, hx, hpx, hkx⟩
          rcases List.mem_append.mp hx with hx2 | hx2
          · exact (hseen k).mpr ⟨x, hx2, hpx, hkx⟩
          · have hxr : x = r := by simpa using hx2
            subst hxr
            exact hkx ▸ hk
      · intro o ho
        obtain ⟨h1, h2, h3⟩ := hout.1 o ho
        exact ⟨h1, h2, firstWithKey_append_of_some h3⟩
    · have hstep : flatStep compl (out, seen) r =
          (out ++ (if postOK compl r then [r] else []), dedupKey r :: seen) := by
        simp [flatStep, hp, hk]
      rw [hstep]
      have hseen' : SeenSpec (processed ++ [r]) (dedupKey r :: seen) := by
        intro k
        constructor
        · intro hkm
          rcases List.mem_cons.mp hkm with rfl | hks
          · exact ⟨r, List.mem_append_right _ (List.mem_singleton_self r), hp, rfl⟩
          · obtain ⟨x, hx, hpx, hkx⟩ := (hseen k).mp hks
            exact ⟨x, List.mem_append_left _ hx, hpx, hkx⟩
        · rintro ⟨x, hx, hpx, hkx⟩
          rcases List.mem_append.mp hx with hx2 | hx2
          · exact List.mem_cons_of_mem _ ((hseen k).mpr ⟨x, hx2, hpx, hkx⟩)
          · have hxr : x = r := by simpa using hx2
            subst hxr
            rw [← hkx]
            exact List.mem_cons_self _ _
      have hold : ∀ o ∈ out, presenceOK o = true ∧ postOK compl o = true ∧
          firstWithKey (processed ++ [r]) (dedupKey o) = some o := by
        intro o ho
        obtain ⟨h1, h2, h3⟩ := hout.1 o ho
        exact ⟨h1, h2, firstWithKey_append_of_some h3⟩
      have hne_r : ∀ o ∈ out, dedupKey o ≠ dedupKey r := by
        intro o ho hcon
        exact hk (hcon ▸ hkey_seen o ho)
      have hfwr : firstWithKey (processed ++ [r]) (dedupKey r) = some r := by
        rw [firstWithKey, List.filter_append]
        have hnil : processed.filter (fun x => presenceOK x && (dedupKey x == dedupKey r)) =
            [] := by
          refine List.filter_eq_nil_iff.mpr ?_
          intro x hx hcon
          simp only [Bool.and_eq_true, beq_iff_eq] at hcon
          exact hk ((hseen (dedupKey r)).mpr ⟨x, hx, hcon.1, hcon.2⟩)
        rw [hnil, List.nil_append]
        simp [hp]
      cases hpost : postOK compl r with
      | false =>
        refine ⟨hseen', ?_, ?_⟩
        · simpa using hold
        · simpa using hout.2
      | true =>
        refine ⟨hseen', ?_, ?_⟩
        · simp only [if_pos rfl, if_true]
          intro o ho
          rcases List.mem_append.mp ho with ho2 | ho2
          · exact hold o ho2
          · have hor : o = r := by simpa using ho2
            subst hor
            exact ⟨hp, hpost, hfwr⟩
        · simp only [if_pos rfl, if_true]
          refine List.pairwise_append.mpr ⟨hout.2, List.pairwise_singleton _ _, ?_⟩
          intro a ha b hb
          have hbr : b = r := by simpa using hb
          subst hbr
          exact hne_r a ha
  · have hp' : presenceOK r = false := by
      cases hx : presenceOK r
      · rfl
      · exact absurd hx hp
    have hstep : flatStep compl (out, seen) r = (out, seen) := by
      simp [flatStep, hp']
    rw [hstep]
    refine ⟨?_, ?_, hout.2⟩
    · intro k
      constructor
      · intro hkm
        obtain ⟨x, hx, hpx, hkx⟩ := (hseen k).mp hkm
        exact ⟨x, List.mem_append_left _ hx, hpx, hkx⟩
      · rintro ⟨x, hx, hpx, hkx⟩
        rcases List.mem_append.mp hx with hx2 | hx2
        · exact (hseen k).mpr ⟨x, hx2, hpx, hkx⟩
        · have hxr : x = r := by simpa using hx2
          subst hxr
          rw [hp'] at hpx
          exact absurd hpx (by simp)
    · intro o ho
      obtain ⟨h1, h2, h3⟩ := hout.1 o ho
      exact ⟨h1, h2, firstWithKey_append_of_some h3⟩

theorem flat_inv (compl : Bool) (rs : List Raw) :
    ∀ processed out seen, SeenSpec processed seen → OutSpec compl processed out →
      SeenSpec (processed ++ rs) (rs.foldl (flatStep compl) (out, seen)).2 ∧
        OutSpec compl (processed ++ rs) (rs.foldl (flatStep compl) (out, seen)).1 := by
  induction rs with
  | nil =>
    intro processed out seen h1 h2
    simpa using ⟨h1, h2⟩
  | cons r rs ih =>
    intro processed out seen h1 h2
    have hstep := flatStep_preserves compl r processed out seen h1 h2
    rw [List.foldl_cons, List.append_cons]
    have hres := ih (processed ++ [r]) (flatStep compl (out, seen) r).1
      (flatStep compl (out, seen) r).2 hstep.1 hstep.2
    simpa using hres

theorem runSurvivors_spec (compl : Bool) (chunks : List (List Raw)) :
    SeenSpec chunks.flatten (runState compl chunks).2 ∧
      OutSpec compl chunks.flatten (runSurvivors compl chunks) := by
  have hbase1 : SeenSpec [] ([] : List (String × String)) := by
    intro k
    simp [SeenSpec]
  have hbase2 : OutSpec compl [] [] := ⟨by simp, List.Pairwise.nil⟩
  have hres := flat_inv compl chunks.flatten [] [] [] hbase1 hbase2
  rw [runSurvivors, runState, runState_eq_flat]
  simpa using hres

theorem filter_key_of_pairwise {out : List Raw}
    (hpw : out.Pairwise (fun a b => dedupKey a ≠ dedupKey b)) {r : Raw} (hr : r ∈ out) :
    out.filter (fun s => dedupKey s == dedupKey r) = [r] := by
  induction out with
  | nil => cases hr
  | cons a t ih =>
    have hpc := List.pairwise_cons.mp hpw
    rcases List.mem_cons.mp hr with heq | hrt
    · subst heq
      rw [List.filter_cons_of_pos (by simp)]
      have hnil : t.filter (fun s => dedupKey s == dedupKey r) = [] := by
        refine List.filter_eq_nil_iff.mpr ?_
        intro x hx hcon
        simp only [beq_iff_eq] at hcon
        exact (hpc.1 x hx) hcon.symm
      rw [hnil]
    · have hne : dedupKey a ≠ dedupKey r := hpc.1 r hrt
      rw [List.filter_cons_of_neg (by simp [hne])]
      exact ih hpc.2 hrt

theorem events_shape_append {α : Type} (evts : List (Bool × α)) (flag : Bool) (rows : α)
    (hf : flag = evts.isEmpty)
    (hs : evts.map Prod.fst =
      if evts.isEmpty then [] else true :: List.replicate (evts.length - 1) false) :
    (evts ++ [(flag, rows)]).map Prod.fst =
      if (evts ++ [(flag, rows)]).isEmpty then []
      else true :: List.replicate ((evts ++ [(flag, rows)]).length - 1) false := by
  cases evts with
  | nil =>
    have hflag : flag = true := by simpa using hf
    subst hflag
    simp
  | cons e t =>
    have hflag : flag = false := by simpa using hf
    subst hflag
    have hs' : (e :: t).map Prod.fst = true :: List.replicate t.length false := by
      simpa using hs
    rw [List.map_append, hs']
    have hrep : List.replicate t.length false ++ [false] =
        List.replicate (t.length + 1) false := (List.replicate_succ' t.length false).symm
    simp only [List.map_cons, List.map_nil, List.cons_append, List.append_assoc,
      List.nil_append, hrep]
    simp [List.length_append]

theorem strict_events_aux (compl : Bool) (chunks : List (List Raw)) :
    ∀ (evts : List (Bool × List Canon)) (seen : List (String × String)) (flag : Bool),
      flag = evts.isEmpty →
      (evts.map Prod.fst =
        if evts.isEmpty then [] else true :: List.replicate (evts.length - 1) false) →
      (chunks.foldl (strictWriteStep compl) (evts, (seen, flag))).1.map Prod.fst =
        (if (chunks.foldl (strictWriteStep compl) (evts, (seen, flag))).1.isEmpty then []
         else true :: List.replicate
             ((chunks.foldl (strictWriteStep compl) (evts, (seen, flag))).1.length - 1)
             false) := by
  induction chunks with
  | nil =>
    intro evts seen flag _ hs
    exact hs
  | cons ch chs ih =>
    intro evts seen flag hf hs
    rw [List.foldl_cons]
    by_cases hemp : (chunkSurvivors compl seen ch).1.isEmpty = true
    · have hstep : strictWriteStep compl (evts, (seen, flag)) ch =
          (evts, ((chunkSurvivors compl seen ch).2, flag)) := by
        simp [strictWriteStep, hemp]
      rw [hstep]
      exact ih evts _ flag hf hs
    · have hemp' : (chunkSurvivors compl seen ch).1.isEmpty = false := by
        cases hx : (chunkSurvivors compl seen ch).1.isEmpty
        · rfl
        · exact absurd hx hemp
      have hstep : strictWriteStep compl (evts, (seen, flag)) ch =
          (evts ++ [(flag, (chunkSurvivors compl seen ch).1.map mapRecord)],
           ((chunkSurvivors compl seen ch).2, false)) := by
        simp [strictWriteStep, hemp']
      rw [hstep]
      exact ih _ _ false (by simp) (events_shape_append evts flag _ hf hs)

theorem simple_events_aux (chunks : List (List Raw)) :
    ∀ (evts : List (Bool × List SCanon)) (flag : Bool),
      flag = evts.isEmpty →
      (evts.map Prod.fst =
        if evts.isEmpty then [] else true :: List.replicate (evts.length - 1) false) →
      (chunks.foldl simpleWriteStep (evts, flag)).1.map Prod.fst =
        (if (chunks.foldl simpleWriteStep (evts, flag)).1.isEmpty then []
         else true :: List.replicate
             ((chunks.foldl simpleWriteStep (evts, flag)).1.length - 1) false) := by
  induction chunks with
  | nil =>
    intro evts flag _ hs
    exact hs
  | cons ch chs ih =>
    intro evts flag hf hs
    rw [List.foldl_cons]
    have hstep : simpleWriteStep (evts, flag) ch =
        (evts ++ [(flag, ch.map simpleMapRecord)], false) := rfl
    rw [hstep]
    exact ih _ false (by simp) (events_shape_append evts flag _ hf hs)

theorem strict_events_flatten (compl : Bool) (chunks : List (List Raw)) :
    ∀ (evts : List (Bool × List Canon)) (flag : Bool) (out : List Raw)
      (seen : List (String × String)),
      (evts.map Prod.snd).flatten = out.map mapRecord →
      ((chunks.foldl (strictWriteStep compl) (evts, (seen, flag))).1.map Prod.snd).flatten =
        (chunks.foldl (chunkStep compl) (out, seen)).1.map mapRecord := by
  induction chunks with
  | nil =>
    intro evts flag out seen h
    exact h
  | cons ch chs ih =>
    intro evts flag out seen h
    rw [List.foldl_cons, List.foldl_cons]
    by_cases hemp : (chunkSurvivors compl seen ch).1.isEmpty = true
    · have hnil : (chunkSurvivors compl seen ch).1 = [] := by
        simpa [List.isEmpty_iff] using hemp
      have hstep : strictWriteStep compl (evts, (seen, flag)) ch =
          (evts, ((chunkSurvivors compl seen ch).2, flag)) := by
        simp [strictWriteStep, hemp]
      have hstep2 : chunkStep compl (out, seen) ch =
          (out, (chunkSurvivors compl seen ch).2) := by
        rw [chunkStep, hnil, List.append_nil]
      rw [hstep, hstep2]
      exact ih evts flag out _ h
    · have hemp' : (chunkSurvivors compl seen ch).1.isEmpty = false := by
        cases hx : (chunkSurvivors compl seen ch).1.isEmpty
        · rfl
        · exact absurd hx hemp
      have hstep : strictWriteStep compl (evts, (seen, flag)) ch =
          (evts ++ [(flag, (chunkSurvivors compl seen ch).1.map mapRecord)],
           ((chunkSurvivors compl seen ch).2, false)) := by
        simp [strictWriteStep, hemp']
      have hstep2 : chunkStep compl (out, seen) ch =
          (out ++ (chunkSurvivors compl seen ch).1, (chunkSurvivors compl seen ch).2) := rfl
      rw [hstep, hstep2]
      refine ih _ false _ _ ?_
      rw [List.map_append, List.flatten_append, h]
      simp

theorem runEvents_header_shape (compl : Bool) (chunks : List (List Raw)) :
    (runEvents compl chunks).map Prod.fst =
      if (runEvents compl chunks).isEmpty then []
      else true :: List.replicate ((runEvents compl chunks).length - 1) false := by
  have hres := strict_events_aux compl chunks [] [] true rfl (by simp)
  rw [runEvents]
  exact hres

theorem simpleRunEvents_header_shape (chunks : List (List Raw)) :
    (simpleRunEvents chunks).map Prod.fst =
      if (simpleRunEvents chunks).isEmpty then []
      else true :: List.replicate ((simpleRunEvents chunks).length - 1) false := by
  have hres := simple_events_aux chunks [] true rfl (by simp)
  rw [simpleRunEvents]
  exact hres

theorem runEvents_output (compl : Bool) (chunks : List (List Raw)) :
    ((runEvents compl chunks).map Prod.snd).flatten = runOutput compl chunks := by
  have hres := strict_events_flatten compl chunks [] true [] [] (by simp)
  rw [runEvents, runOutput, runSurvivors, runState]
  exact hres

theorem simple_events_flatten (chunks : List (List Raw)) :
    ∀ (evts : List (Bool × List SCanon)) (flag : Bool),
      ((chunks.foldl simpleWriteStep (evts, flag)).1.map Prod.snd).flatten =
        (evts.map Prod.snd).flatten ++ chunks.flatten.map simpleMapRecord := by
  induction chunks with
  | nil =>
    intro evts flag
    simp
  | cons ch chs ih =>
    intro evts flag
    rw [List.foldl_cons]
    have hstep : simpleWriteStep (evts, flag) ch =
        (evts ++ [(flag, ch.map simpleMapRecord)], false) := rfl
    rw [hstep, ih]
    simp

theorem simpleRunOut_eq (chunks : List (List Raw)) :
    simpleRunOut chunks = chunks.flatten.map simpleMapRecord := by
  rw [simpleRunOut, simpleRunEvents]
  have hres := simple_events_flatten chunks [] true
  rw [hres]
  simp

theorem mapRecord_nutrients (r : Raw) :
    (mapRecord r).nutrients = r.nutrients.map clean_numeric := rfl

theorem mapRecord_servings (r : Raw) :
    (mapRecord r).servings = servingsNorm r.serving_quantity := rfl

theorem mapRecord_serving_size (r : Raw) :
    (mapRecord r).serving_size =
      stripQuotes (if strip ((r.serving_size).getD ("")) = ("") then ("100g?")
        else (r.serving_size).getD ("")) := rfl

/-- C1 counterexample: the claim covers the simple variant's nutrient handling
(`prepare_foods_csv_chunks.py` lines 14–52), but there the comma-decimal cell
`"2,5"` coerces to NaN (`none`) — not a finite value in `[0, 999_999]` and not
the default `0.0` — because `pd.to_numeric(..., errors="coerce")` cannot parse
it and the out-of-range lambda leaves NaN unchanged.  The strict variant's
`clean_numeric` yields `2.5` for the same cell. -/
theorem C1_counterexample :
    simpleCell (some ("2,5")) = none ∧ clean_numeric (some ("2,5")) = mkRat 5 2 := by
  decide

/-- C1 (amended): the strict variant's `clean_numeric` always yields a value in
`[0, 999_999]`, substituting `0.0` whenever no numeral can be extracted from the
cell; the simple variant keeps every parsable value inside `[0, 999_999]`
(out-of-range values become `0.0`) but leaves unparsable cells as NaN instead
of `0.0`. -/
theorem C1_normalizer_range (c : Option String) :
    (0 ≤ clean_numeric c ∧ clean_numeric c ≤ 999999) ∧
    (extractFirst ((astypeStr c).data.map commaToDot) = none → clean_numeric c = 0) ∧
    (∀ v, simpleCell c = some v → 0 ≤ v ∧ v ≤ 999999) := by
  refine ⟨⟨clip_nonneg _, clip_le _⟩, ?_, ?_⟩
  · intro hex
    show clip (((extractFirst ((astypeStr c).data.map commaToDot)).bind parseSigned).getD 0)
      = 0
    rw [hex]
    show clip 0 = 0
    rw [clip_of_bounds le_rfl (by norm_num)]
  · intro v hv
    cases htc : toNumericCell c with
    | none => simp [simpleCell, htc] at hv
    | some w =>
      simp only [simpleCell, htc] at hv
      by_cases hcond : (999999 < w ∨ w < 0)
      · rw [if_pos hcond] at hv
        have hv0 : (0 : ℚ) = v := Option.some.inj hv
        rw [← hv0]
        norm_num
      · rw [if_neg hcond] at hv
        have hv0 : w = v := Option.some.inj hv
        push_neg at hcond
        rw [← hv0]
        exact ⟨not_lt.mp (not_lt.mpr hcond.2), hcond.1⟩

/-- C1 witness: the range part at the comma-decimal unit-suffixed cell
`"2,5 g"`, and the default-substitution part at the digit-free cell `"abc"`. -/
theorem C1_normalizer_range_witness :
    (0 ≤ clean_numeric (some ("2,5 g")) ∧ clean_numeric (some ("2,5 g")) ≤ 999999) ∧
      clean_numeric (some ("abc")) = 0 :=
  ⟨(C1_normalizer_range (some ("2,5 g"))).1,
   (C1_normalizer_range (some ("abc"))).2.1 (by decide)⟩

/-- C2 counterexample: two records in two different batches carry the same
`(name, brand)` key after trim/lowercase, yet ZERO records with that key
survive — not "exactly one".  The first record claims the key in `seen_pairs`
during de-duplication and is then dropped by the all-zero-nutrient filter, and
the second is rejected as a duplicate. -/
theorem C2_counterexample :
    dedupKey c2first = dedupKey c2second ∧
      runSurvivors false [[c2first], [c2second]] = [] := by
  decide

/-- C2 (amended): in the strict variant de-duplication is global and AT MOST
one record per key survives: a surviving record is the unique survivor with its
key, and it is the first presence-passing record with that key in the
concatenated input order.  (When that first record is later dropped by the
completeness or all-zero filter, no record with the key survives — see C9.  The
simple variant performs no de-duplication at all.) -/
theorem C2_global_dedup_first_claims_key (compl : Bool) (chunks : List (List Raw))
    (r : Raw) (h : r ∈ runSurvivors compl chunks) :
    (runSurvivors compl chunks).filter (fun s => dedupKey s == dedupKey r) = [r] ∧
      firstWithKey chunks.flatten (dedupKey r) = some r := by
  obtain ⟨_, hspec⟩ := runSurvivors_spec compl chunks
  exact ⟨filter_key_of_pairwise hspec.2 h, (hspec.1 r h).2.2⟩

/-- C2 witness: a concrete two-batch run in which the first record survives and
the duplicate in the second batch is dropped. -/
theorem C2_global_dedup_first_claims_key_witness :
    (runSurvivors false [[c2wa], [c2wb]]).filter
        (fun s => dedupKey s == dedupKey c2wa) = [c2wa] ∧
      firstWithKey ([[c2wa], [c2wb]] : List (List Raw)).flatten (dedupKey c2wa) =
        some c2wa :=
  C2_global_dedup_first_claims_key false [[c2wa], [c2wb]] c2wa (by decide)

/-- C3 counterexample: the claim asserts the all-zero drop "also in the
simple/no-completeness variant" (`prepare_foods_csv_chunks.py`), but that file
applies no all-zero filter: a record whose every nutrient cell normalizes to
`0.0` appears in its output. -/
theorem C3_counterexample :
    simpleRunOut [[c3zero]] =
        [⟨"Rice", some ("B"), [some 0, some 0], none, 1⟩] ∧
      (simpleMapRecord c3zero).nutrients.all (fun q => q == some 0) = true := by
  decide

/-- C3 (amended): in the strict variant a record whose every nutrient field
cleans to exactly `0.0` never appears in the output; the simple variant has no
all-zero filter and such records do appear in its output. -/
theorem C3_all_zero_never_output_strict (compl : Bool) (chunks : List (List Raw))
    (r : Raw) (h : allZeroRaw r = true) : mapRecord r ∉ runOutput compl chunks := by
  intro hmem
  rw [runOutput] at hmem
  obtain ⟨s, hs, hmap⟩ := List.mem_map.mp hmem
  have hpost := ((runSurvivors_spec compl chunks).2.1 s hs).2.1
  have hszero : allZeroRaw s = true := by
    calc allZeroRaw s = (mapRecord s).nutrients.all (fun q => q == 0) := by
          rw [allZeroRaw, mapRecord_nutrients]
      _ = (mapRecord r).nutrients.all (fun q => q == 0) := by rw [hmap]
      _ = allZeroRaw r := by rw [allZeroRaw, mapRecord_nutrients]
      _ = true := h
  rw [postOK, hszero] at hpost
  simp at hpost

/-- C3 witness: a concrete all-zero record is absent from the strict output of
its own run. -/
theorem C3_all_zero_never_output_strict_witness :
    mapRecord c3wzero ∉ runOutput false [[c3wzero]] :=
  C3_all_zero_never_output_strict false [[c3wzero]] c3wzero (by decide)

/-- C4 counterexample: the claim covers both variants, but the simple variant
(`prepare_foods_csv_chunks.py` line 10) keeps blank-name records, renaming the
blank name to `"Unknown Product"` — the record appears in the output. -/
theorem C4_counterexample :
    simpleRunOut [[c4blank]] =
      [⟨"Unknown Product", some ("B"), [some 7], none, 1⟩] := by
  decide

/-- C4 (amended): in the strict variant a record whose name is absent or blank
after trimming never survives to the output; the simple variant instead keeps
such records with the substituted name `"Unknown Product"`. -/
theorem C4_blank_name_never_survives_strict (compl : Bool) (chunks : List (List Raw))
    (r : Raw) (h : presenceOK r = false) : r ∉ runSurvivors compl chunks := by
  intro hmem
  have hpres := ((runSurvivors_spec compl chunks).2.1 r hmem).1
  rw [h] at hpres
  exact absurd hpres (by simp)

/-- C4 witness: a concrete blank-name record is absent from the strict
survivors of its own run. -/
theorem C4_blank_name_never_survives_strict_witness :
    c4wblank ∉ runSurvivors false [[c4wblank]] :=
  C4_blank_name_never_survives_strict false [[c4wblank]] c4wblank (by decide)

/-- C5: the shared `servings` mapping of both variants always lies in
`(0, 99]`: when the parsed serving-quantity is absent (NaN), `≤ 0`, or `> 99`,
the value `1.0` is substituted, and otherwise the parsed value is kept; both
variants' field mappings use exactly this function. -/
theorem C5_servings_range (c : Option String) :
    (0 < servingsNorm c ∧ servingsNorm c ≤ 99) ∧
    (toNumericCell c = none → servingsNorm c = 1) ∧
    (∀ v, toNumericCell c = some v → (v ≤ 0 ∨ 99 < v) → servingsNorm c = 1) ∧
    (∀ v, toNumericCell c = some v → 0 < v → v ≤ 99 → servingsNorm c = v) ∧
    (∀ r : Raw, (mapRecord r).servings = servingsNorm r.serving_quantity) ∧
    (∀ r : Raw, (simpleMapRecord r).servings = servingsNorm r.serving_quantity) := by
  refine ⟨?_, ?_, ?_, ?_, fun r => rfl, fun r => rfl⟩
  · cases htc : toNumericCell c with
    | none =>
      simp only [servingsNorm, htc]
      norm_num
    | some v =>
      by_cases hc : (v ≤ 0 ∨ 99 < v)
      · simp only [servingsNorm, htc, if_pos hc]
        norm_num
      · simp only [servingsNorm, htc, if_neg hc]
        push_neg at hc
        exact hc
  · intro h
    simp only [servingsNorm, h]
  · intro v hv hcond
    simp only [servingsNorm, hv, if_pos hcond]
  · intro v hv h1 h2
    have hcond : ¬(v ≤ 0 ∨ 99 < v) := by
      push_neg
      exact ⟨h1, h2⟩
    simp only [servingsNorm, hv, if_neg hcond]

/-- C5 witness: the spec's own scenario — serving-quantity `"150"` is out of
range, so `1.0` is substituted; the substituted value lies in `(0, 99]`. -/
theorem C5_servings_range_witness :
    (0 < servingsNorm (some ("150")) ∧ servingsNorm (some ("150")) ≤ 99) ∧
      servingsNorm (some ("150")) = 1 :=
  ⟨(C5_servings_range (some ("150"))).1,
   (C5_servings_range (some ("150"))).2.2.1 150 (by decide) (by decide)⟩

/-- C6 counterexample: the claim covers the simple variant
(`prepare_foods_csv_chunks.py` line 53), but there `serving_size` is coerced
NUMERICALLY like a nutrient: for raw text `"240 ml"` the output cell is NaN
(`none`) — neither the raw text nor the `"100g?"` sentinel, and not text at
all. -/
theorem C6_counterexample :
    (simpleRunOut [[c6raw]]).map (fun c => c.serving_size) = [none] := by
  decide

/-- C6 (amended): in the strict variant every output record's `serving_size` is
text: the raw cell (with quote characters stripped by the sanitization step)
when it is non-blank after trimming, and the sentinel `"100g?"` when the cell is
absent or blank; the simple variant instead coerces `serving_size` numerically
and has no sentinel. -/
theorem C6_serving_size_text_strict (compl : Bool) (chunks : List (List Raw))
    (c : Canon) (h : c ∈ runOutput compl chunks) :
    ∃ r, r ∈ runSurvivors compl chunks ∧ c = mapRecord r ∧
      c.serving_size =
        (if strip ((r.serving_size).getD ("")) = ("") then ("100g?")
         else stripQuotes ((r.serving_size).getD (""))) := by
  rw [runOutput] at h
  obtain ⟨r, hr, hmap⟩ := List.mem_map.mp h
  refine ⟨r, hr, hmap.symm, ?_⟩
  rw [← hmap, mapRecord_serving_size]
  by_cases hss : strip ((r.serving_size).getD ("")) = ("")
  · rw [if_pos hss, if_pos hss]
    decide
  · rw [if_neg hss, if_neg hss]

/-- C6 witness: a run with one surviving record whose raw `serving_size` text
is `"30 g"`. -/
theorem C6_serving_size_text_strict_witness :
    ∃ r, r ∈ runSurvivors false [[c6wraw]] ∧ mapRecord c6wraw = mapRecord r ∧
      (mapRecord c6wraw).serving_size =
        (if strip ((r.serving_size).getD ("")) = ("") then ("100g?")
         else stripQuotes ((r.serving_size).getD (""))) :=
  C6_serving_size_text_strict false [[c6wraw]] (mapRecord c6wraw) (by decide)

/-- C7: across a whole run of either variant, as soon as at least one batch is
written, the header flag is true on exactly the first written batch and false
on every later one — the header row is written exactly once, before the first
surviving batch's rows, regardless of how many batches are skipped as empty —
and both variants emit the canonical §6 field order. -/
theorem C7_header_once (compl : Bool) (chunks chunks2 : List (List Raw))
    (h1 : runEvents compl chunks ≠ []) (h2 : simpleRunEvents chunks2 ≠ []) :
    (runEvents compl chunks).map Prod.fst =
        true :: List.replicate ((runEvents compl chunks).length - 1) false ∧
      (simpleRunEvents chunks2).map Prod.fst =
        true :: List.replicate ((simpleRunEvents chunks2).length - 1) false ∧
      strictOutColumns = specFieldOrder ∧ simpleOutColumns = specFieldOrder := by
  refine ⟨?_, ?_, rfl, rfl⟩
  · have hshape := runEvents_header_shape compl chunks
    rw [if_neg (fun hc => h1 (by simpa [List.isEmpty_iff] using hc))] at hshape
    exact hshape
  · have hshape := simpleRunEvents_header_shape chunks2
    rw [if_neg (fun hc => h2 (by simpa [List.isEmpty_iff] using hc))] at hshape
    exact hshape

/-- C7 witness: concrete one-batch runs of both variants, each producing one
written batch flagged with the header. -/
theorem C7_header_once_witness :
    (runEvents false [[c7wstrict]]).map Prod.fst =
        true :: List.replicate ((runEvents false [[c7wstrict]]).length - 1) false ∧
      (simpleRunEvents [[c7wsimple]]).map Prod.fst =
        true :: List.replicate ((simpleRunEvents [[c7wsimple]]).length - 1) false ∧
      strictOutColumns = specFieldOrder ∧ simpleOutColumns = specFieldOrder :=
  C7_header_once false [[c7wstrict]] [[c7wsimple]] (by decide) (by decide)

/-- C8: evaluation of the code at the failing input, an entirely absent
nutrient column.  The claim (and the code's own intent, visible in the
`fillna(0.0)` default inside `clean_numeric` and in the `col is None` guard) is
the default `0.0` with no error; but the strict variant's `None` branch returns
an EMPTY Series, which the DataFrame constructor aligns to NaN (`none`) on
every row, and the simple variant raises `AttributeError` because
`pd.to_numeric(None, errors="coerce")` is the scalar `nan`, which has no
`.apply`.  A present column, by contrast, always yields a real value per cell. -/
theorem C8_absent_column_behaviour :
    clean_numeric_column none 2 = [none, none] ∧
      (∀ n : ℕ, clean_numeric_column none n = List.replicate n none) ∧
      simpleNutrientColumn none = Except.error ("AttributeError") ∧
      (∀ cells : List (Option String),
        clean_numeric_column (some cells) 0 =
          cells.map (fun c => some (clean_numeric c))) :=
  ⟨rfl, fun _ => rfl, rfl, fun _ => rfl⟩

/-- C9: in the strict variant the key is inserted into `seen_pairs` during the
duplicate filter, BEFORE the completeness and all-zero filters run; hence when
the first presence-passing record with a key is rejected by one of those later
filters (`postOK` false), every later record with the same key is rejected as a
duplicate and the key never appears among the survivors at all. -/
theorem C9_rejected_first_consumes_key (compl : Bool) (chunks : List (List Raw))
    (r : Raw) (h1 : firstWithKey chunks.flatten (dedupKey r) = some r)
    (h2 : postOK compl r = false) :
    (runSurvivors compl chunks).filter (fun s => dedupKey s == dedupKey r) = [] := by
  refine List.filter_eq_nil_iff.mpr ?_
  intro s hs hcon
  simp only [beq_iff_eq] at hcon
  obtain ⟨_, hpost, hfw⟩ := (runSurvivors_spec compl chunks).2.1 s hs
  rw [hcon] at hfw
  have hsr : s = r := Option.some.inj (h1.symm.trans hfw).symm
  rw [hsr, h2] at hpost
  exact absurd hpost (by simp)

/-- C9 witness: the first record with the key is dropped by the all-zero
filter; the duplicate in the next batch is rejected; no survivor carries the
key. -/
theorem C9_rejected_first_consumes_key_witness :
    (runSurvivors false [[c9wfirst], [c9wsecond]]).filter
        (fun s => dedupKey s == dedupKey c9wfirst) = [] :=
  C9_rejected_first_consumes_key false [[c9wfirst], [c9wsecond]] c9wfirst
    (by decide) (by decide)

/-- C10: on a raw cell whose text is exactly a plain unsigned decimal numeral
(`decNumDen` parses the whole cell: no comma, no unit suffix, no comparison
prefix) with value at most `999_999`, the simple variant's per-cell coercion
and the strict variant's `clean_numeric` agree on the parsed value. -/
theorem C10_normalizers_agree_on_plain_numerals (s : String) (p : ℕ × ℕ)
    (h1 : decNumDen s.data = some p) (h2 : mkRat p.1 p.2 ≤ 999999) :
    simpleCell (some s) = some (mkRat p.1 p.2) ∧
      clean_numeric (some s) = mkRat p.1 p.2 := by
  have hnn : (0 : ℚ) ≤ mkRat p.1 p.2 := mkRat_nat_nonneg p.1 p.2
  have htn : toNumeric s = some (mkRat p.1 p.2) := toNumeric_of_decNumDen h1
  constructor
  · have htc : toNumericCell (some s) = some (mkRat p.1 p.2) := htn
    have hcond : ¬((999999 : ℚ) < mkRat p.1 p.2 ∨ mkRat p.1 p.2 < 0) := by
      push_neg
      exact ⟨h2, hnn⟩
    simp only [simpleCell, htc, if_neg hcond]
  · rw [clean_numeric_of_decNumDen h1, clip_of_bounds hnn h2]

/-- C10 witness: the plain numeral `"2.5"` gives `2.5` under both normalizers. -/
theorem C10_normalizers_agree_on_plain_numerals_witness :
    simpleCell (some ("2.5")) = some (mkRat 25 10) ∧
      clean_numeric (some ("2.5")) = mkRat 25 10 :=
  C10_normalizers_agree_on_plain_numerals ("2.5") (25, 10) (by decide) (by decide)

end FoodsCSV
